import Mathlib

/-!
Verification development for the `victoria` metrics client
(`src/victoria/__init__.py`): a transformer turning quote `Result`
records into metric `Point`s, and a bounded buffer (`Victoria`) that
accumulates points and flushes them to a VictoriaMetrics `/import`
HTTP endpoint.

Modelling conventions of the shallow embedding:
* `datetime` values and Python floats are modelled as exact rationals
  (`ℚ`); `float(x)` on an `int` is the exact cast `Int → ℚ`.
* Python `Decimal` is modelled as a value carrying its exact decimal
  string representation (`str` on it returns that string).
* Python `dict[str, str]` is modelled as an insertion-ordered
  association list `List (String × String)` with distinct keys.
* A failing `assert` (AssertionError) and a raised HTTP error are
  modelled as `Option`/explicit raise flags.
* The tqdm progress bar and the environment-variable fallback for the
  URL are presentation/configuration side channels not touched by any
  claim; they are elided.
-/

namespace PyVictoria

/-- Python `Decimal`, kept abstract as its exact decimal string
representation: `str` on a `Decimal` returns exactly this string. -/
structure Decimal where
  s : String
deriving DecidableEq, Repr

/-- `str(d)` for a `Decimal d` (exact decimal representation). -/
def decimalStr (d : Decimal) : String := d.s

/-- The `Result` dataclass. Field `time` is `datetime|None`, modelled
as `Option ℚ` (epoch seconds). The dataclass defaults (`time=None`,
`amount_out=0`, ...) play no role in the claims and are elided. -/
structure Result where
  token_in : String
  token_out : String
  amount_in : Decimal
  provider : String
  elapsed : ℚ
  time : Option ℚ
  amount_out : Int
  amount_out_min : Int
  error : String
  btc_fee : Int
deriving DecidableEq

/-- The `Point` dataclass. -/
structure Point where
  time : ℚ
  name : String
  value : ℚ
  labels : List (String × String)
deriving DecidableEq

/-- `result_to_labels(r)`: the four-entry labels dict, in source
order. -/
def result_to_labels (r : Result) : List (String × String) :=
  [("amount_in", decimalStr r.amount_in),
   ("token_in", r.token_in),
   ("token_out", r.token_out),
   ("provider", r.provider)]

/-- `result_to_point(metric, value, r)`: asserts `r.time is not None`
(the `none` branch models the AssertionError) and builds the Point.
`float(value)` is the identity here because values are already exact
rationals. -/
def result_to_point (metric : String) (value : ℚ) (r : Result) : Option Point :=
  match r.time with
  | none => none
  | some t =>
    some { name := metric, time := t, value := value, labels := result_to_labels r }

/-- `result_to_points(r)`: the generator, as the list of yielded
points; a failing assert inside any yield aborts the whole
conversion (`none`). -/
def result_to_points (r : Result) : Option (List Point) := do
  let p1 ← result_to_point "quote_amount_out" (r.amount_out : ℚ) r
  let p2 ← result_to_point "quote_elapsed" r.elapsed r
  let ps3 ←
    if r.btc_fee ≠ 0 then do
      let p ← result_to_point "quote_btc_fee" (r.btc_fee : ℚ) r
      pure [p]
    else pure []
  let ps4 ←
    if r.amount_out_min ≠ 0 then do
      let p ← result_to_point "quote_amount_out_min" (r.amount_out_min : ℚ) r
      pure [p]
    else pure []
  pure ([p1, p2] ++ ps3 ++ ps4)

/-- Python `int(q)` on a float: truncation toward zero. -/
def pyTrunc (q : ℚ) : Int := Int.tdiv q.num q.den

/-- One line of the `/import` wire payload, structured (the source
serializes it with `json.dumps`; we keep the dict structure). -/
structure VMRecord where
  metric : List (String × String)
  values : List ℚ
  timestamps : List Int
deriving DecidableEq

/-- `point_to_victoria(p)`: `metric` is `__name__` followed by the
labels as sibling keys; `values`/`timestamps` are singleton lists,
the timestamp truncated to epoch milliseconds. -/
def point_to_victoria (p : Point) : VMRecord :=
  { metric := ("__name__", p.name) :: p.labels
    values := [p.value]
    timestamps := [pyTrunc (p.time * 1000)] }

/-- Decoder of a wire record, reading the structure back the way the
round-trip property describes it: the name from `metric.__name__`,
the value as the sole element of `values`, the timestamp as the sole
element of `timestamps`, and the labels as the remaining keys of
`metric`. -/
def parseVictoria (rec : VMRecord) : Option (String × ℚ × Int × List (String × String)) :=
  match rec.metric.lookup "__name__", rec.values, rec.timestamps with
  | some n, [v], [t] => some (n, v, t, rec.metric.filter (fun kv => kv.1 != "__name__"))
  | _, _, _ => none

/-- The `Victoria` buffer state: destination URL, pending points (in
push order), and the capacity `limit`. -/
structure Victoria where
  url : String
  points : List Point
  limit : Nat
deriving DecidableEq

/-- `Victoria(limit, url)` with an explicitly supplied URL: pending
points start empty. (The environment fallback for a missing URL is a
configuration concern elided here.) -/
def Victoria.make (limit : Nat) (url : String) : Victoria :=
  { url := url, points := [], limit := limit }

/-- One HTTP POST issued by `push_points`. The body is newline-joined
`json.dumps` of the records; we keep the list of records. -/
structure HttpPost where
  url : String
  bodyLines : List VMRecord
deriving DecidableEq

/-- The HTTP requests a `push_points(points)` call issues: exactly one
POST to `url + "/import"`, unconditionally — the source has no guard
for an empty `points` list. -/
def push_points_calls (v : Victoria) (pts : List Point) : List HttpPost :=
  [{ url := v.url ++ "/import", bodyLines := pts.map point_to_victoria }]

/-- One `Victoria.push(point)` step. `ok` says whether the HTTP POST,
if one is triggered, succeeds (2xx). Returns the state after the
call, the arguments of the `push_points` calls made (0 or 1), and
whether the call raised. The source appends first, flushes when the
pending length equals `limit`, and clears the pending list only
after `push_points` returns: a raising flush skips the clear. -/
def Victoria.push (v : Victoria) (p : Point) (ok : Bool) :
    Victoria × List (List Point) × Bool :=
  let pts := v.points ++ [p]
  if pts.length = v.limit then
    if ok then ({ v with points := [] }, [pts], false)
    else ({ v with points := pts }, [pts], true)
  else
    ({ v with points := pts }, [], false)

/-- A sequence of `push` calls, each paired with the success of any
POST it triggers; the caller catches any raise and keeps pushing.
Returns the final state and all `push_points` arguments, in order. -/
def pushSeq (v : Victoria) (ps : List (Point × Bool)) : Victoria × List (List Point) :=
  match ps with
  | [] => (v, [])
  | (p, ok) :: rest =>
    let r := v.push p ok
    let r2 := pushSeq r.1 rest
    (r2.1, r.2.1 ++ r2.2)

/-- A sequence of `push` calls in which every triggered flush
succeeds. -/
def pushRun (v : Victoria) (ps : List Point) : Victoria × List (List Point) :=
  match ps with
  | [] => (v, [])
  | p :: rest =>
    let r := v.push p true
    let r2 := pushRun r.1 rest
    (r2.1, r.2.1 ++ r2.2)

/-- An operation on a buffer: a `push`, or a `finalize`-style
`push_points(self.points)` call (as `Victoria.use` performs on exit);
the latter never mutates the pending list. The `Bool` is whether the
triggered POST, if any, succeeds. -/
inductive Op where
  | push (p : Point) (ok : Bool)
  | finalize (ok : Bool)
deriving DecidableEq

/-- Whether the operation's HTTP outcome flag is success. -/
def Op.succeeds : Op → Bool
  | .push _ ok => ok
  | .finalize ok => ok

/-- State after one operation (the caller catches raises). -/
def Victoria.step (v : Victoria) (op : Op) : Victoria :=
  match op with
  | .push p ok => (v.push p ok).1
  | .finalize _ => v

/-- The states at which control returns to the caller, one per
operation of the run. -/
def runStates (v : Victoria) (ops : List Op) : List Victoria :=
  match ops with
  | [] => []
  | op :: rest =>
    let v1 := v.step op
    v1 :: runStates v1 rest

/-- How the body of a `Victoria.use` scope exits. -/
inductive BodyExit where
  | normal
  | raised
deriving DecidableEq

/-- `Victoria.use(limit, url)` modelled: construct the buffer, run the
body's pushes, and — only when the body exits normally — run the
final `push_points(v.points)`. The source generator has no
`try/finally` around its `yield`, so an exception thrown out of the
body propagates without the final flush. Returns the arguments of
all `push_points` calls performed inside the scope. -/
def useRun (limit : Nat) (url : String) (body : List (Point × Bool)) (e : BodyExit) :
    List (List Point) :=
  let v0 := Victoria.make limit url
  let r := pushSeq v0 body
  match e with
  | .normal => r.2 ++ [r.1.points]
  | .raised => r.2

/-! Sample data used by witnesses and counterexamples. -/

/-- A sample point. -/
def pA : Point := { time := 0, name := "a", value := 0, labels := [] }

/-- A sample point with a nonempty label set. -/
def pW : Point := { time := 3/2, name := "m", value := 7, labels := [("k", "v")] }

/-- The spec's worked example Result (time fixed at epoch 5). -/
def rEx : Result :=
  { token_in := "USDC", token_out := "BTC", amount_in := ⟨"100.00"⟩,
    provider := "acme", elapsed := 21/50, time := some 5,
    amount_out := 99000, amount_out_min := 0, error := "", btc_fee := 0 }

/-- The first point the Transformer yields for `rEx`. -/
def pEx1 : Point :=
  { time := 5, name := "quote_amount_out", value := (rEx.amount_out : ℚ),
    labels := result_to_labels rEx }

/-- The second point the Transformer yields for `rEx`. -/
def pEx2 : Point :=
  { time := 5, name := "quote_elapsed", value := rEx.elapsed,
    labels := result_to_labels rEx }

/-! ## Claims about the Transformer -/

/-- Claim C9: converting a Result to a Point fails (the assert) exactly
when `time` is unset; with `time` set the failure branch is never
reached. -/
theorem result_to_point_requires_time (m : String) (x : ℚ) (r : Result) :
    result_to_point m x r = none ↔ r.time = none := by
  cases h : r.time <;> simp [result_to_point, h]

/-- Claim C6: with `time` set, `btc_fee = 0` and `amount_out_min = 0`
give exactly the two points `quote_amount_out` then `quote_elapsed`
with values `amount_out` and `elapsed`; `btc_fee ≠ 0` adds a
`quote_btc_fee` point of value `btc_fee` immediately after
`quote_elapsed`. -/
theorem result_to_points_shape (r : Result) (t : ℚ) (ht : r.time = some t) :
    (r.btc_fee = 0 → r.amount_out_min = 0 →
      result_to_points r = some
        [{ time := t, name := "quote_amount_out", value := (r.amount_out : ℚ),
           labels := result_to_labels r },
         { time := t, name := "quote_elapsed", value := r.elapsed,
           labels := result_to_labels r }])
    ∧ (r.btc_fee ≠ 0 →
      result_to_points r = some
        ([{ time := t, name := "quote_amount_out", value := (r.amount_out : ℚ),
            labels := result_to_labels r },
          { time := t, name := "quote_elapsed", value := r.elapsed,
            labels := result_to_labels r },
          { time := t, name := "quote_btc_fee", value := (r.btc_fee : ℚ),
            labels := result_to_labels r }]
         ++ if r.amount_out_min ≠ 0 then
              [{ time := t, name := "quote_amount_out_min",
                 value := (r.amount_out_min : ℚ), labels := result_to_labels r }]
            else [])) := by
  constructor
  · intro hb hm
    simp [result_to_points, result_to_point, ht, hb, hm]
  · intro hb
    by_cases hm : r.amount_out_min = 0 <;>
      simp [result_to_points, result_to_point, ht, hb, hm]

/-- Witness for C6 at the spec's worked example. -/
theorem result_to_points_shape_witness :
    result_to_points rEx = some [pEx1, pEx2] :=
  (result_to_points_shape rEx 5 rfl).1 rfl rfl

/-- Claim C7: `result_to_labels` is the fixed four-key mapping (with
`amount_in` the exact decimal string), contains no `time`, `elapsed`,
`amount_out` or `btc_fee` key, and every point emitted by
`result_to_points` carries `r.time` and exactly this mapping. -/
theorem result_to_labels_spec (r : Result) :
    result_to_labels r
      = [("amount_in", decimalStr r.amount_in), ("token_in", r.token_in),
         ("token_out", r.token_out), ("provider", r.provider)]
    ∧ (result_to_labels r).map Prod.fst = ["amount_in", "token_in", "token_out", "provider"]
    ∧ ("time" ∉ (result_to_labels r).map Prod.fst
       ∧ "elapsed" ∉ (result_to_labels r).map Prod.fst
       ∧ "amount_out" ∉ (result_to_labels r).map Prod.fst
       ∧ "btc_fee" ∉ (result_to_labels r).map Prod.fst)
    ∧ (∀ t pts, r.time = some t → result_to_points r = some pts →
        ∀ p ∈ pts, p.time = t ∧ p.labels = result_to_labels r) := by
  refine ⟨rfl, rfl,
    ⟨by simp [result_to_labels], by simp [result_to_labels],
     by simp [result_to_labels], by simp [result_to_labels]⟩, ?_⟩
  intro t pts ht hpts p hp
  by_cases hb : r.btc_fee = 0 <;> by_cases hm : r.amount_out_min = 0 <;>
    (simp [result_to_points, result_to_point, ht, hb, hm] at hpts
     subst hpts
     simp at hp
     rcases hp with rfl | rfl | rfl | rfl <;> exact ⟨rfl, rfl⟩)

/-- Witness for C7 at the worked example, with the inner
quantification discharged at the first emitted point. -/
theorem result_to_labels_spec_witness :
    Point.time pEx1 = 5 ∧ Point.labels pEx1 = result_to_labels rEx :=
  (result_to_labels_spec rEx).2.2.2 5 [pEx1, pEx2] rfl rfl pEx1
    (List.mem_cons_self pEx1 [pEx2])

/-- Claim C8: encoding a point whose labels avoid the reserved
`__name__` key and decoding the record recovers the name, the value,
the millisecond-truncated timestamp and the labels. -/
theorem point_wire_roundtrip (p : Point)
    (h : ∀ kv ∈ p.labels, kv.1 ≠ "__name__") :
    parseVictoria (point_to_victoria p)
      = some (p.name, p.value, pyTrunc (p.time * 1000), p.labels) := by
  have hf : p.labels.filter (fun kv => kv.1 != "__name__") = p.labels :=
    List.filter_eq_self.mpr (by intro kv hkv; simpa using h kv hkv)
  simp [parseVictoria, point_to_victoria, List.lookup, hf]

/-- Witness for C8 at a concrete labelled point. -/
theorem point_wire_roundtrip_witness :
    parseVictoria (point_to_victoria pW)
      = some (pW.name, pW.value, pyTrunc (pW.time * 1000), pW.labels) :=
  point_wire_roundtrip pW (by decide)

/-! ## Helper lemmas about the buffer -/

/-- A `push` never changes the capacity. -/
theorem push_limit (v : Victoria) (p : Point) (ok : Bool) :
    (v.push p ok).1.limit = v.limit := by
  simp only [Victoria.push]
  split_ifs <;> rfl

/-- No operation changes the capacity. -/
theorem step_limit (v : Victoria) (op : Op) : (v.step op).limit = v.limit := by
  cases op with
  | push p ok => simpa [Victoria.step] using push_limit v p ok
  | finalize ok => rfl

/-- Unfolding lemma for `pushRun` on a cons. -/
theorem pushRun_cons (v : Victoria) (p : Point) (rest : List Point) :
    pushRun v (p :: rest)
      = ((pushRun (v.push p true).1 rest).1,
         (v.push p true).2.1 ++ (pushRun (v.push p true).1 rest).2) := rfl

/-- A push that exactly reaches the capacity, with the POST
succeeding: one flush of the whole pending list, then the clear. -/
theorem push_full (v : Victoria) (p : Point) (h : v.points.length + 1 = v.limit) :
    v.push p true = ({ v with points := [] }, [v.points ++ [p]], false) := by
  have hc : (v.points ++ [p]).length = v.limit := by
    simp only [List.length_append, List.length_cons, List.length_nil]
    omega
  simp [Victoria.push, hc]

/-- A push below (or already beyond) the capacity: appended, no
flush. -/
theorem push_not_full (v : Victoria) (p : Point) (ok : Bool)
    (h : ¬ v.points.length + 1 = v.limit) :
    v.push p ok = ({ v with points := v.points ++ [p] }, [], false) := by
  have hc : ¬ (v.points ++ [p]).length = v.limit := by
    simp only [List.length_append, List.length_cons, List.length_nil]
    omega
  simp [Victoria.push, hc]
  exact fun hcon => absurd hcon h

/-- A run of pushes that exactly fills the buffer (all flushes
succeeding) makes a single flush of everything and clears the
pending list. -/
theorem pushRun_fill (ps : List Point) :
    ∀ v : Victoria, ps ≠ [] → v.points.length + ps.length = v.limit →
      pushRun v ps = ({ v with points := [] }, [v.points ++ ps]) := by
  induction ps with
  | nil => intro v hne h; exact absurd rfl hne
  | cons p rest ih =>
    intro v hne h
    cases rest with
    | nil =>
      have hl : v.points.length + 1 = v.limit := by
        simpa using h
      rw [pushRun_cons, push_full v p hl]
      simp [pushRun]
    | cons q rest2 =>
      have hne2 : ¬ v.points.length + 1 = v.limit := by
        simp only [List.length_cons] at h
        omega
      have hrec := ih { v with points := v.points ++ [p] } (by simp)
        (by simp only [List.length_append, List.length_cons, List.length_nil] at h ⊢; omega)
      rw [pushRun_cons, push_not_full v p true hne2]
      simp only [hrec]
      simp

/-- Runs of successful pushes compose. -/
theorem pushRun_append (bs as : List Point) :
    ∀ v : Victoria, pushRun v (as ++ bs)
      = ((pushRun (pushRun v as).1 bs).1,
         (pushRun v as).2 ++ (pushRun (pushRun v as).1 bs).2) := by
  induction as with
  | nil => intro v; simp [pushRun]
  | cons a rest ih =>
    intro v
    rw [List.cons_append, pushRun_cons, pushRun_cons]
    simp only [ih]
    simp [List.append_assoc]

/-! ## Claims about the buffer -/

/-- Claim C1 (amended): from an empty buffer of capacity `n ≥ 1`,
with flushes succeeding, pushing exactly `n` points makes exactly one
flush of all `n` points in order and leaves nothing pending; when
`n ≥ 2`, one further push makes no additional flush and leaves one
point pending. (With `n = 1` the extra push itself reaches capacity
and flushes again.) -/
theorem push_capacity_single_flush (url : String) (n : Nat) (ps : List Point) (q : Point)
    (hn : 1 ≤ n) (hlen : ps.length = n) :
    pushRun (Victoria.make n url) ps = (Victoria.make n url, [ps])
    ∧ (2 ≤ n → pushRun (Victoria.make n url) (ps ++ [q])
        = ({ Victoria.make n url with points := [q] }, [ps])) := by
  have hne : ps ≠ [] := by
    intro h0
    rw [h0] at hlen
    simp at hlen
    omega
  have h1 : pushRun (Victoria.make n url) ps = (Victoria.make n url, [ps]) := by
    have := pushRun_fill ps (Victoria.make n url) hne (by simp [Victoria.make, hlen])
    simpa [Victoria.make] using this
  refine ⟨h1, fun h2 => ?_⟩
  have hq : pushRun (Victoria.make n url) [q]
      = ({ Victoria.make n url with points := [q] }, []) := by
    have hne1 : ¬ (Victoria.make n url).points.length + 1 = n := by
      simp [Victoria.make]
      omega
    rw [pushRun_cons, push_not_full _ q true (by simpa [Victoria.make] using hne1)]
    simp [pushRun, Victoria.make]
  rw [pushRun_append, h1]
  simp [hq]

/-- Witness for C1 at capacity 2. -/
theorem push_capacity_single_flush_witness :
    pushRun (Victoria.make 2 "u") [pA, pA] = (Victoria.make 2 "u", [[pA, pA]])
    ∧ pushRun (Victoria.make 2 "u") ([pA, pA] ++ [pA])
        = ({ Victoria.make 2 "u" with points := [pA] }, [[pA, pA]]) :=
  ⟨(push_capacity_single_flush "u" 2 [pA, pA] pA (by decide) rfl).1,
   (push_capacity_single_flush "u" 2 [pA, pA] pA (by decide) rfl).2 (by decide)⟩

/-- Counterexample for C1 as stated: with capacity 1, pushing
`n + 1 = 2` points makes a second flush and leaves nothing pending,
not one flush and one pending point. -/
theorem push_capacity_claim_fails_at_limit_one :
    ¬ ((pushRun (Victoria.make 1 "u") [pA, pA]).2.length = 1
       ∧ (pushRun (Victoria.make 1 "u") [pA, pA]).1.points.length = 1) := by
  decide

/-- Claim C10: once the pending list is strictly longer than the
capacity, no later push ever triggers a flush (the equality test
never holds again) and the pending list grows by one per push,
whatever the flush-outcome flags. -/
theorem overfull_buffer_never_flushes (ps : List (Point × Bool)) :
    ∀ v : Victoria, v.limit < v.points.length →
      (pushSeq v ps).2 = []
      ∧ (pushSeq v ps).1.points.length = v.points.length + ps.length := by
  induction ps with
  | nil => intro v h; simp [pushSeq]
  | cons pb rest ih =>
    intro v h
    obtain ⟨p, ok⟩ := pb
    have hne : ¬ v.points.length + 1 = v.limit := by omega
    have hrec := ih { v with points := v.points ++ [p] } (by simp; omega)
    simp only [pushSeq, push_not_full v p ok hne]
    simp [hrec.1, hrec.2]
    omega

/-- Witness for C10: an overfull buffer (2 points, capacity 1)
accepts another push without flushing. -/
theorem overfull_buffer_never_flushes_witness :
    (pushSeq { url := "u", points := [pA, pA], limit := 1 } [(pA, true)]).2 = []
    ∧ (pushSeq { url := "u", points := [pA, pA], limit := 1 } [(pA, true)]).1.points.length
        = 2 + 1 :=
  overfull_buffer_never_flushes [(pA, true)]
    { url := "u", points := [pA, pA], limit := 1 } (by decide)

/-- Invariant behind C2: when every triggered POST succeeds, a buffer
strictly below capacity stays strictly below capacity at every point
where control returns to the caller. -/
theorem runStates_bounded (ops : List Op) :
    ∀ v : Victoria, v.points.length < v.limit →
      (∀ op ∈ ops, op.succeeds = true) →
      ∀ s ∈ runStates v ops, s.points.length < v.limit := by
  induction ops with
  | nil =>
    intro v hv hok s hs
    simp [runStates] at hs
  | cons op rest ih =>
    intro v hv hok s hs
    have hop : op.succeeds = true := hok op (List.mem_cons_self op rest)
    have hstep : (v.step op).points.length < (v.step op).limit := by
      cases op with
      | push p ok =>
        have hoktrue : ok = true := hop
        subst hoktrue
        by_cases hc : v.points.length + 1 = v.limit
        · simp [Victoria.step, push_full v p hc]
          omega
        · simp [Victoria.step, push_not_full v p true hc]
          omega
      | finalize ok => simpa [Victoria.step] using hv
    simp only [runStates, List.mem_cons] at hs
    rcases hs with rfl | hs
    · rwa [step_limit] at hstep
    · have := ih (v.step op) hstep
        (fun o ho => hok o (List.mem_cons_of_mem op ho)) s hs
      rwa [step_limit] at this

/-- Claim C2 (amended): in every run of push/finalize operations in
which every triggered flush succeeds, the pending length never
exceeds the (positive) capacity at any point where control returns
to the caller. -/
theorem pending_bounded_when_flushes_succeed (url : String) (n : Nat) (ops : List Op)
    (hn : 0 < n) (hok : ∀ op ∈ ops, op.succeeds = true) :
    ∀ s ∈ runStates (Victoria.make n url) ops, s.points.length ≤ n := by
  intro s hs
  have h := runStates_bounded ops (Victoria.make n url)
    (by simpa [Victoria.make] using hn) hok s hs
  have h2 : s.points.length < n := by simpa [Victoria.make] using h
  omega

/-- Witness for C2 with one capacity-triggered flush and a finalize,
evaluated at the state after the push. -/
theorem pending_bounded_when_flushes_succeed_witness :
    (Victoria.make 1 "u").points.length ≤ 1 :=
  pending_bounded_when_flushes_succeed "u" 1 [Op.push pA true, Op.finalize true]
    (by decide) (by decide) (Victoria.make 1 "u") (by decide)

/-- Counterexample for C2 as stated: with capacity 1, a push whose
triggered flush fails leaves the point pending (the clear is
skipped), and the next push returns control with 2 > 1 points
pending. -/
theorem pending_bound_fails_after_flush_error :
    ¬ (∀ s ∈ runStates (Victoria.make 1 "u") [Op.push pA false, Op.push pA true],
        s.points.length ≤ 1) := by
  decide

/-- Claim C3 (amended): a push that brings the pending length up to
the capacity always calls `push_points` on the full pending sequence;
when the POST succeeds the pending list is cleared and the push
returns normally, but when it fails the raise propagates to the
caller of `push` and the pending list is left holding the full
batch — the clear is skipped, not performed regardless of outcome. -/
theorem capacity_flush_clear_and_propagation (v : Victoria) (p : Point)
    (h : v.points.length + 1 = v.limit) :
    ((v.push p true).1.points = [] ∧ (v.push p true).2.1 = [v.points ++ [p]]
      ∧ (v.push p true).2.2 = false)
    ∧ ((v.push p false).1.points = v.points ++ [p]
      ∧ (v.push p false).2.1 = [v.points ++ [p]] ∧ (v.push p false).2.2 = true) := by
  have hc : (v.points ++ [p]).length = v.limit := by
    simp only [List.length_append, List.length_cons, List.length_nil]
    omega
  simp [Victoria.push, hc]

/-- Witness for C3 at capacity 1. -/
theorem capacity_flush_clear_and_propagation_witness :
    (((Victoria.make 1 "u").push pA true).1.points = []
      ∧ ((Victoria.make 1 "u").push pA true).2.1 = [(Victoria.make 1 "u").points ++ [pA]]
      ∧ ((Victoria.make 1 "u").push pA true).2.2 = false)
    ∧ (((Victoria.make 1 "u").push pA false).1.points = (Victoria.make 1 "u").points ++ [pA]
      ∧ ((Victoria.make 1 "u").push pA false).2.1 = [(Victoria.make 1 "u").points ++ [pA]]
      ∧ ((Victoria.make 1 "u").push pA false).2.2 = true) :=
  capacity_flush_clear_and_propagation (Victoria.make 1 "u") pA (by decide)

/-- Counterexample for C3 as stated: when the capacity-triggered
flush fails, the raise propagates but the pending sequence is not
reset to empty. -/
theorem pending_not_cleared_on_flush_error :
    ((Victoria.make 1 "u").push pA false).2.2 = true
    ∧ ((Victoria.make 1 "u").push pA false).1.points ≠ [] := by
  decide

/-- Claim C4, evaluated at the failing input: a `Victoria.use` scope
whose body pushes one point and then raises performs no `push_points`
call at all — the pending point is silently dropped because the
source generator has no try/finally around its yield — while the
same body exiting normally does get the final flush. -/
theorem use_skips_final_flush_on_exception :
    useRun 1000 "u" [(pA, true)] BodyExit.raised = []
    ∧ (pushSeq (Victoria.make 1000 "u") [(pA, true)]).1.points = [pA]
    ∧ useRun 1000 "u" [(pA, true)] BodyExit.normal = [[pA]] := by
  decide

/-- Claim C5 (amended): a finalize/flush over an empty pending
sequence is not a no-op: `push_points` has no emptiness guard, so a
`use` scope exiting normally with nothing pending still performs one
`push_points([])` call, one HTTP POST to the import endpoint with an
empty body. -/
theorem empty_finalize_posts_once (url : String) (n : Nat) :
    useRun n url [] BodyExit.normal = [[]]
    ∧ push_points_calls (Victoria.make n url) []
      = [{ url := url ++ "/import", bodyLines := [] }] := by
  constructor
  · simp [useRun, pushSeq, Victoria.make]
  · simp [push_points_calls, Victoria.make]

/-- Counterexample for C5 as stated: flushing zero points still
issues an HTTP request. -/
theorem empty_flush_not_noop :
    push_points_calls (Victoria.make 2 "u") [] ≠ [] := by
  decide

end PyVictoria
